import Mathlib

/-!
Verification development for the diskv key/value store (src/diskv.rs).

The store consists of two layers:

* `DiskvCache` — a HashMap-backed, byte-bounded in-memory cache
  (`cache: HashMap<String, Vec<u8>>`, `cache_size: u32`, `cache_size_max: u32`)
  with operations `put`, `get`, `delete` and the eviction routine
  `make_space_for`.
* `Diskv` — the disk-backed store: `put` writes the file then updates the
  cache, `get` is read-through (cache hit, else `fs::read` then a full `put`
  to repopulate), `delete` removes the file and evicts the cache entry.

Modelling choices, all translated from the source:

* The `HashMap` is embedded as an association list with pairwise-distinct
  keys; its (implementation-defined) iteration order is the list order, and
  `insert` appends (the map never holds the key at insertion time because
  `put` deletes it first).  `u32` arithmetic is `Nat` arithmetic reduced
  modulo `2^32 = 4294967296` exactly where the source operates on `u32`
  values (the `as u32` casts, additions, and wrapping subtractions).
* The filesystem under `base_path` is embedded as an association list from
  key to byte contents.  Each `fs` call takes an explicit fault flag: `false`
  means the call behaves normally (reads/removes report `NotFound` exactly
  when the file is absent), `true` injects an arbitrary non-`NotFound` I/O
  error, which the source wraps in `DiskvError::IOError` and propagates.
* `DiskvCache.put` returns an `Option`: `none` embeds the
  `panic!("couldn't make space for given key")` branch, which aborts the
  process; a run of operations that panics has no resulting state.
-/

/-- Byte strings (`Vec<u8>`): lists of bytes, with exact `Nat` lengths. -/
abbrev Bytes := List Nat

/-- Association-list lookup, first matching key wins (`HashMap::get`). -/
def alookup (k : String) : List (String × Bytes) → Option Bytes
  | [] => none
  | (k2, v) :: t => if k2 = k then some v else alookup k t

/-- Remove the first entry with the given key (`HashMap::remove_entry`). -/
def aerase (k : String) : List (String × Bytes) → List (String × Bytes)
  | [] => []
  | (k2, v) :: t => if k2 = k then t else (k2, v) :: aerase k t

/-- Overwrite-or-append update (`fs::write` of the file named by the key). -/
def psUpdate (k : String) (v : Bytes) : List (String × Bytes) → List (String × Bytes)
  | [] => [(k, v)]
  | (k2, w) :: t => if k2 = k then (k, v) :: t else (k2, w) :: psUpdate k v t

/-- Sum of the value lengths of all entries (true byte count held). -/
def sumLen (l : List (String × Bytes)) : Nat := (l.map (fun p => p.2.length)).sum

/-- The keys of an association list are pairwise distinct (a `HashMap` fact). -/
abbrev NoDupKeys (l : List (String × Bytes)) : Prop := (l.map Prod.fst).Nodup

/--
`DiskvCache`: in-memory cache.  `cache_size` and `cache_size_max` are `u32`
in the source; reachable values are kept reduced modulo `2^32`.
-/
structure DiskvCache where
  cache : List (String × Bytes)
  cache_size : Nat
  cache_size_max : Nat
deriving DecidableEq

/-- `DiskvCache::new`. -/
def DiskvCache.new (cache_size_max : Nat) : DiskvCache :=
  ⟨[], 0, cache_size_max⟩

/-- `DiskvCache::get`: copy of the stored value on a hit, `None` on a miss. -/
def DiskvCache.get (c : DiskvCache) (key : String) : Option Bytes :=
  alookup key c.cache

/--
`DiskvCache::delete`: `remove_entry` then
`self.cache_size -= v.1.len() as u32` (wrapping `u32` subtraction).
-/
def DiskvCache.delete (c : DiskvCache) (key : String) : DiskvCache :=
  match alookup key c.cache with
  | some v =>
      ⟨aerase key c.cache,
       (c.cache_size + 4294967296 - v.length % 4294967296) % 4294967296,
       c.cache_size_max⟩
  | none => c

/--
The scan in `DiskvCache::make_space_for`: walk the entries in iteration
order accumulating `key_sizes += v.len() as u32` and collecting the visited
keys, stopping after the first entry for which
`self.cache_size - key_sizes >= val_len`.
-/
def msfKeys (cache_size val_len : Nat) : List (String × Bytes) → Nat → List String
  | [], _ => []
  | (k, v) :: t, key_sizes =>
      let ks := (key_sizes + v.length % 4294967296) % 4294967296
      if (cache_size + 4294967296 - ks) % 4294967296 ≥ val_len then [k]
      else k :: msfKeys cache_size val_len t ks

/-- `DiskvCache::make_space_for`: collect keys, then delete each in order. -/
def DiskvCache.make_space_for (c : DiskvCache) (val_len : Nat) : DiskvCache :=
  (msfKeys c.cache_size val_len c.cache 0).foldl (fun st k => st.delete k) c

/--
The cache state reached inside `DiskvCache::put` after `self.delete(&key)`
and the conditional `self.make_space_for(val_len)` (the mutated `self` at
the final capacity re-check).  `self.cache_size_max` never changes, so both
comparisons read `c.cache_size_max`.
-/
def DiskvCache.putEvicted (c : DiskvCache) (key : String) (val : Bytes) : DiskvCache :=
  if ((c.delete key).cache_size + val.length % 4294967296) % 4294967296 >
      c.cache_size_max
  then (c.delete key).make_space_for (val.length % 4294967296)
  else c.delete key

/--
`DiskvCache::put`.  `val_len = val.len() as u32`; oversized values are
ignored (`return`, no error); otherwise delete the key, evict if the insert
would overflow, and `panic!` (embedded as `none`) if space is still
insufficient; else insert and add `val_len` to `cache_size`.
-/
def DiskvCache.put (c : DiskvCache) (key : String) (val : Bytes) : Option DiskvCache :=
  if val.length % 4294967296 > c.cache_size_max then some c
  else if ((c.putEvicted key val).cache_size + val.length % 4294967296) % 4294967296 >
      c.cache_size_max then none
  else some ⟨(c.putEvicted key val).cache ++ [(key, val)],
             ((c.putEvicted key val).cache_size + val.length % 4294967296) % 4294967296,
             c.cache_size_max⟩

/-- Non-`NotFound` I/O failure (`DiskvError::IOError` with another kind). -/
inductive FsErr where
  | other
deriving DecidableEq

instance {ε α : Type} [DecidableEq ε] [DecidableEq α] : DecidableEq (Except ε α) :=
  fun x y =>
    match x, y with
    | .ok a, .ok b =>
        if h : a = b then .isTrue (by rw [h]) else .isFalse (by simp [h])
    | .error e, .error f =>
        if h : e = f then .isTrue (by rw [h]) else .isFalse (by simp [h])
    | .ok _, .error _ => .isFalse (by simp)
    | .error _, .ok _ => .isFalse (by simp)

/--
`Diskv`: the cache plus the persistent state, the files under `base_path`
(one file per key, holding the value bytes).
-/
structure Diskv where
  cache : DiskvCache
  ps : List (String × Bytes)
deriving DecidableEq

/--
`Diskv::put`: `fs::write` then, on success, `cache.put` (whose panic aborts:
`none`).  On write failure (`wfault`) the error is returned and nothing
changes.
-/
def Diskv.put (st : Diskv) (key : String) (val : Bytes) (wfault : Bool) :
    Option (Diskv × Except FsErr Unit) :=
  if wfault then some (st, .error .other)
  else
    match st.cache.put key val with
    | none => none
    | some c' => some (⟨c', psUpdate key val st.ps⟩, .ok ())

/--
`Diskv::get`: `try_get` under the read lock; on a miss `fs::read` (`rfault`
injects a non-`NotFound` failure), and if the file exists repopulate via a
full `Diskv::put` (so `wfault` is that inner write's fault flag), returning
the read value; `NotFound` becomes `Ok(None)`.
-/
def Diskv.get (st : Diskv) (key : String) (rfault wfault : Bool) :
    Option (Diskv × Except FsErr (Option Bytes)) :=
  match st.cache.get key with
  | some v => some (st, .ok (some v))
  | none =>
      if rfault then some (st, .error .other)
      else
        match alookup key st.ps with
        | some v =>
            match Diskv.put st key v wfault with
            | none => none
            | some (st', .ok _) => some (st', .ok (some v))
            | some (st', .error e) => some (st', .error e)
        | none => some (st, .ok none)

/--
`Diskv::delete`: `fs::remove_file`; on success evict from the cache; a
`NotFound` error becomes `Ok(())` with the cache left untouched; any other
failure (`rmfault`) is returned with nothing changed.
-/
def Diskv.delete (st : Diskv) (key : String) (rmfault : Bool) :
    Diskv × Except FsErr Unit :=
  if rmfault then (st, .error .other)
  else
    match alookup key st.ps with
    | some _ => (⟨st.cache.delete key, aerase key st.ps⟩, .ok ())
    | none => (st, .ok ())

/-- One client operation against the store, with its fault flags. -/
inductive Op where
  | put (key : String) (val : Bytes) (wfault : Bool)
  | get (key : String) (rfault wfault : Bool)
  | del (key : String) (rmfault : Bool)

/-- Run one operation; `none` when it panics. -/
def runOp (st : Diskv) : Op → Option Diskv
  | .put k v wf => (Diskv.put st k v wf).map Prod.fst
  | .get k rf wf => (Diskv.get st k rf wf).map Prod.fst
  | .del k rmf => some (Diskv.delete st k rmf).1

/-- Run a sequence of operations; `none` as soon as one panics. -/
def runOps (st : Diskv) : List Op → Option Diskv
  | [] => some st
  | op :: t =>
      match runOp st op with
      | none => none
      | some st' => runOps st' t

/-- One cache-layer operation (the `DiskvCache` methods directly). -/
inductive COp where
  | put (key : String) (val : Bytes)
  | get (key : String)
  | del (key : String)

/-- Run one cache operation (`get` never mutates); `none` on panic. -/
def crunOp (c : DiskvCache) : COp → Option DiskvCache
  | .put k v => c.put k v
  | .get _ => some c
  | .del k => some (c.delete k)

/-- Run a sequence of cache operations. -/
def crunOps (c : DiskvCache) : List COp → Option DiskvCache
  | [] => some c
  | op :: t =>
      match crunOp c op with
      | none => none
      | some c' => crunOps c' t

/-- The cache-size bookkeeping invariant of `DiskvCache`, plus the `u32`
range facts that make its arithmetic exact. -/
def CacheInv (c : DiskvCache) : Prop :=
  c.cache_size = sumLen c.cache ∧ c.cache_size ≤ c.cache_size_max ∧
    c.cache_size_max < 2147483648

/-- Byte length of the value a cache operation inserts (0 otherwise). -/
def copLen : COp → Nat
  | .put _ v => v.length
  | .get _ => 0
  | .del _ => 0

/-- Key `k` is durably bound to `v` and the cache agrees or misses. -/
def KV (k : String) (v : Bytes) (st : Diskv) : Prop :=
  NoDupKeys st.cache.cache ∧ alookup k st.ps = some v ∧
    (alookup k st.cache.cache = some v ∨ alookup k st.cache.cache = none)

/-- Key `k` is absent from both the persistent store and the cache. -/
def ABS (k : String) (st : Diskv) : Prop :=
  alookup k st.ps = none ∧ alookup k st.cache.cache = none

/-- The operation is neither a `put` nor a `delete` of key `k`. -/
def AvoidsK (k : String) : Op → Prop
  | .put k2 _ _ => k2 ≠ k
  | .get _ _ _ => True
  | .del k2 _ => k2 ≠ k

/-- The operation is not a `put` of key `k`. -/
def AvoidsPutK (k : String) : Op → Prop
  | .put k2 _ _ => k2 ≠ k
  | .get _ _ _ => True
  | .del _ _ => True

/-! ### Concrete states used by the claim theorems -/

/-- A cache holding a 1-byte entry (iterated first) and a 9-byte entry,
exactly full: `cache_size = 10 = cache_size_max`. -/
def cacheOneNine : DiskvCache :=
  ⟨[("a", [0]), ("b", [1, 1, 1, 1, 1, 1, 1, 1, 1])], 10, 10⟩

/-- A cache holding two 3-byte entries under a 10-byte ceiling. -/
def cacheThreeThree : DiskvCache :=
  ⟨[("k1", [1, 1, 1]), ("k2", [2, 2, 2])], 6, 10⟩

/-- A 10-byte value (fits a 10-byte ceiling exactly). -/
def val10 : Bytes := List.replicate 10 97

/-- An 11-byte value (exceeds a 10-byte ceiling). -/
def val11 : Bytes := List.replicate 11 97

/-- A freshly constructed store with `cache_size_max = 10`. -/
def store0 : Diskv := ⟨DiskvCache.new 10, []⟩

/-- `store0` after `put "k1" val10`: cached and persisted. -/
def store1 : Diskv := ⟨⟨[("k1", val10)], 10, 10⟩, [("k1", val10)]⟩

/-- `store1` after the oversized `put "k1" val11`: the file holds `val11`
but the cache still holds `val10`. -/
def store2 : Diskv := ⟨⟨[("k1", val10)], 10, 10⟩, [("k1", val11)]⟩

/-- A store whose cache holds "k1" although no file for it exists. -/
def stC3 : Diskv := ⟨⟨[("k1", [0])], 1, 10⟩, []⟩

/-- Store with a single 1-byte entry "k1" both cached and persisted
(the state reached by `put store0 "k1" [7]`). -/
def storeW : Diskv := ⟨⟨[("k1", [7])], 1, 10⟩, [("k1", [7])]⟩

/-- Store with "k1" persisted (1 byte) but not cached. -/
def store9 : Diskv := ⟨⟨[], 0, 10⟩, [("k1", [7])]⟩

/-- A value of `2^32 + 1` bytes: its `as u32` length truncates to 1. -/
def hugeVal : Bytes := List.replicate 4294967297 0

/-- The cache produced by putting `hugeVal` into a fresh cache of ceiling 10:
the accounted size is 1 although `2^32 + 1` bytes are held. -/
def hugeCache : DiskvCache := ⟨[("k", hugeVal)], 1, 10⟩

/-! ### Association-list lemmas -/

theorem alookup_eq_none_iff (k : String) (l : List (String × Bytes)) :
    alookup k l = none ↔ k ∉ l.map Prod.fst := by
  induction l with
  | nil => simp [alookup]
  | cons p t ih =>
      obtain ⟨k2, v⟩ := p
      by_cases h : k2 = k
      · subst h
        simp [alookup]
      · simp [alookup, h, ih, Ne.symm h]

theorem alookup_aerase_ne {k k2 : String} (h : k ≠ k2) (l : List (String × Bytes)) :
    alookup k (aerase k2 l) = alookup k l := by
  induction l with
  | nil => simp [aerase]
  | cons p t ih =>
      obtain ⟨k3, v⟩ := p
      by_cases h3 : k3 = k2
      · subst h3
        simp [aerase, alookup, Ne.symm h]
      · by_cases hk : k3 = k
        · subst hk
          simp [aerase, h3, alookup]
        · simp [aerase, h3, alookup, hk, ih]

theorem keys_aerase_sublist (k : String) (l : List (String × Bytes)) :
    ((aerase k l).map Prod.fst).Sublist (l.map Prod.fst) := by
  induction l with
  | nil => simp [aerase]
  | cons p t ih =>
      obtain ⟨k2, v⟩ := p
      by_cases h : k2 = k
      · subst h
        have he : aerase k2 ((k2, v) :: t) = t := by simp [aerase]
        rw [he, List.map_cons]
        exact List.sublist_cons_self k2 (t.map Prod.fst)
      · simp only [aerase, if_neg h, List.map_cons]
        exact ih.cons₂ k2

theorem nodupKeys_aerase {l : List (String × Bytes)} (k : String) (h : NoDupKeys l) :
    NoDupKeys (aerase k l) :=
  (keys_aerase_sublist k l).nodup h

theorem alookup_aerase_self {k : String} {l : List (String × Bytes)} (h : NoDupKeys l) :
    alookup k (aerase k l) = none := by
  induction l with
  | nil => simp [aerase, alookup]
  | cons p t ih =>
      obtain ⟨k2, v⟩ := p
      by_cases h2 : k2 = k
      · subst h2
        simp only [aerase, if_pos rfl]
        rw [alookup_eq_none_iff]
        have := (List.nodup_cons.mp h).1
        exact this
      · simp only [aerase, if_neg h2, alookup, if_neg h2]
        exact ih (List.nodup_cons.mp h).2

theorem alookup_aerase_none {k k2 : String} {l : List (String × Bytes)}
    (h : alookup k l = none) : alookup k (aerase k2 l) = none := by
  rw [alookup_eq_none_iff] at h ⊢
  intro hmem
  exact h ((keys_aerase_sublist k2 l).mem hmem)

theorem alookup_append_some {k : String} {l l2 : List (String × Bytes)} {v : Bytes}
    (h : alookup k l = some v) : alookup k (l ++ l2) = some v := by
  induction l with
  | nil => simp [alookup] at h
  | cons p t ih =>
      obtain ⟨k2, w⟩ := p
      by_cases h2 : k2 = k
      · simp [alookup, h2] at h ⊢
        exact h
      · simp [alookup, h2] at h ⊢
        exact ih h

theorem alookup_append_none {k : String} {l l2 : List (String × Bytes)}
    (h : alookup k l = none) : alookup k (l ++ l2) = alookup k l2 := by
  induction l with
  | nil => simp
  | cons p t ih =>
      obtain ⟨k2, w⟩ := p
      by_cases h2 : k2 = k
      · simp [alookup, h2] at h
      · simp [alookup, h2] at h ⊢
        exact ih h

theorem alookup_length_le {k : String} {l : List (String × Bytes)} {v : Bytes}
    (h : alookup k l = some v) : v.length ≤ sumLen l := by
  induction l with
  | nil => simp [alookup] at h
  | cons p t ih =>
      obtain ⟨k2, w⟩ := p
      by_cases h2 : k2 = k
      · simp [alookup, h2] at h
        subst h
        simp [sumLen]
      · simp [alookup, h2] at h
        have := ih h
        simp [sumLen] at this ⊢
        omega

theorem sumLen_aerase {k : String} {l : List (String × Bytes)} {v : Bytes}
    (h : alookup k l = some v) : sumLen (aerase k l) = sumLen l - v.length := by
  induction l with
  | nil => simp [alookup] at h
  | cons p t ih =>
      obtain ⟨k2, w⟩ := p
      by_cases h2 : k2 = k
      · simp [alookup, h2] at h
        subst h
        simp [aerase, h2, sumLen]
      · simp only [alookup, if_neg h2] at h
        have hle := alookup_length_le h
        have ht := ih h
        simp only [aerase, if_neg h2]
        simp only [sumLen, List.map_cons, List.sum_cons] at ht hle ⊢
        omega

theorem mem_length_le_sumLen {p : String × Bytes} {l : List (String × Bytes)}
    (h : p ∈ l) : p.2.length ≤ sumLen l := by
  induction l with
  | nil => simp at h
  | cons q t ih =>
      rcases List.mem_cons.mp h with h | h
      · subst h
        simp [sumLen]
      · have := ih h
        simp [sumLen] at this ⊢
        omega

theorem sumLen_append (l l2 : List (String × Bytes)) :
    sumLen (l ++ l2) = sumLen l + sumLen l2 := by
  simp [sumLen]

theorem alookup_psUpdate_self (k : String) (v : Bytes) (l : List (String × Bytes)) :
    alookup k (psUpdate k v l) = some v := by
  induction l with
  | nil => simp [psUpdate, alookup]
  | cons p t ih =>
      obtain ⟨k2, w⟩ := p
      by_cases h : k2 = k
      · simp [psUpdate, h, alookup]
      · simp [psUpdate, h, alookup, ih]

theorem alookup_psUpdate_ne {k k2 : String} (h : k ≠ k2) (v : Bytes)
    (l : List (String × Bytes)) : alookup k (psUpdate k2 v l) = alookup k l := by
  induction l with
  | nil => simp [psUpdate, alookup, Ne.symm h]
  | cons p t ih =>
      obtain ⟨k3, w⟩ := p
      by_cases h3 : k3 = k2
      · subst h3
        simp [psUpdate, alookup, Ne.symm h, fun hh : k3 = k => h (hh ▸ rfl)]
      · by_cases hk : k3 = k
        · subst hk
          simp [psUpdate, h3, alookup]
        · simp [psUpdate, h3, alookup, hk, ih]

/-! ### DiskvCache lemmas -/

theorem DiskvCache.delete_of_none {c : DiskvCache} {k : String}
    (h : alookup k c.cache = none) : c.delete k = c := by
  unfold DiskvCache.delete
  rw [h]

theorem DiskvCache.delete_of_some {c : DiskvCache} {k : String} {v : Bytes}
    (h : alookup k c.cache = some v) :
    c.delete k = ⟨aerase k c.cache,
      (c.cache_size + 4294967296 - v.length % 4294967296) % 4294967296,
      c.cache_size_max⟩ := by
  unfold DiskvCache.delete
  rw [h]

theorem DiskvCache.delete_max (c : DiskvCache) (k : String) :
    (c.delete k).cache_size_max = c.cache_size_max := by
  rcases h : alookup k c.cache with _ | v
  · rw [DiskvCache.delete_of_none h]
  · rw [DiskvCache.delete_of_some h]

theorem DiskvCache.delete_nodup {c : DiskvCache} (k : String) (h : NoDupKeys c.cache) :
    NoDupKeys (c.delete k).cache := by
  rcases hl : alookup k c.cache with _ | v
  · rw [DiskvCache.delete_of_none hl]; exact h
  · rw [DiskvCache.delete_of_some hl]; exact nodupKeys_aerase k h

theorem DiskvCache.delete_alookup_ne {c : DiskvCache} {k k2 : String} (hne : k ≠ k2) :
    alookup k (c.delete k2).cache = alookup k c.cache := by
  rcases hl : alookup k2 c.cache with _ | v
  · rw [DiskvCache.delete_of_none hl]
  · rw [DiskvCache.delete_of_some hl]; exact alookup_aerase_ne hne c.cache

theorem DiskvCache.delete_alookup_self {c : DiskvCache} {k : String}
    (h : NoDupKeys c.cache) : alookup k (c.delete k).cache = none := by
  rcases hl : alookup k c.cache with _ | v
  · rw [DiskvCache.delete_of_none hl]; exact hl
  · rw [DiskvCache.delete_of_some hl]; exact alookup_aerase_self h

theorem DiskvCache.delete_alookup_none {c : DiskvCache} {k : String} (k2 : String)
    (h : alookup k c.cache = none) : alookup k (c.delete k2).cache = none := by
  rcases hl : alookup k2 c.cache with _ | v
  · rw [DiskvCache.delete_of_none hl]; exact h
  · rw [DiskvCache.delete_of_some hl]; exact alookup_aerase_none h

theorem DiskvCache.delete_inv {c : DiskvCache} (k : String) (h : CacheInv c) :
    CacheInv (c.delete k) := by
  obtain ⟨hsum, hle, hmax⟩ := h
  rcases hl : alookup k c.cache with _ | v
  · rw [DiskvCache.delete_of_none hl]; exact ⟨hsum, hle, hmax⟩
  · rw [DiskvCache.delete_of_some hl]
    have hvle : v.length ≤ sumLen c.cache := alookup_length_le hl
    have hv32 : v.length < 4294967296 := by omega
    have her : sumLen (aerase k c.cache) = sumLen c.cache - v.length := sumLen_aerase hl
    unfold CacheInv
    dsimp only
    rw [Nat.mod_eq_of_lt hv32]
    have hw : c.cache_size + 4294967296 - v.length =
        (c.cache_size - v.length) + 4294967296 := by omega
    rw [hw, Nat.add_mod_right, Nat.mod_eq_of_lt (by omega), her]
    refine ⟨by omega, by omega, hmax⟩

theorem foldl_delete_pres (P : DiskvCache → Prop)
    (hP : ∀ (c : DiskvCache) (k : String), P c → P (c.delete k)) (ks : List String) :
    ∀ c : DiskvCache, P c → P (ks.foldl (fun st k => st.delete k) c) := by
  induction ks with
  | nil => intro c h; simpa using h
  | cons k t ih =>
      intro c h
      simp only [List.foldl_cons]
      exact ih _ (hP c k h)

theorem DiskvCache.make_space_for_pres (P : DiskvCache → Prop)
    (hP : ∀ (c : DiskvCache) (k : String), P c → P (c.delete k))
    (c : DiskvCache) (n : Nat) (h : P c) : P (c.make_space_for n) :=
  foldl_delete_pres P hP _ c h

theorem DiskvCache.make_space_for_max (c : DiskvCache) (n : Nat) :
    (c.make_space_for n).cache_size_max = c.cache_size_max :=
  DiskvCache.make_space_for_pres (fun x => x.cache_size_max = c.cache_size_max)
    (fun x k hx => (x.delete_max k).trans hx) c n rfl

theorem DiskvCache.make_space_for_inv {c : DiskvCache} (n : Nat) (h : CacheInv c) :
    CacheInv (c.make_space_for n) :=
  DiskvCache.make_space_for_pres CacheInv (fun x k hx => x.delete_inv k hx) c n h

theorem DiskvCache.make_space_for_none {c : DiskvCache} {k : String} (n : Nat)
    (h : alookup k c.cache = none) : alookup k (c.make_space_for n).cache = none :=
  DiskvCache.make_space_for_pres (fun x => alookup k x.cache = none)
    (fun x k2 hx => x.delete_alookup_none k2 hx) c n h

theorem DiskvCache.delete_keyinfo {c : DiskvCache} {k : String} {v : Bytes} (k2 : String)
    (h : NoDupKeys c.cache ∧
      (alookup k c.cache = some v ∨ alookup k c.cache = none)) :
    NoDupKeys (c.delete k2).cache ∧
      (alookup k (c.delete k2).cache = some v ∨ alookup k (c.delete k2).cache = none) := by
  refine ⟨DiskvCache.delete_nodup k2 h.1, ?_⟩
  by_cases hk : k = k2
  · subst hk
    exact Or.inr (DiskvCache.delete_alookup_self h.1)
  · rw [DiskvCache.delete_alookup_ne hk]
    exact h.2

theorem DiskvCache.make_space_for_keyinfo {c : DiskvCache} {k : String} {v : Bytes}
    (n : Nat)
    (h : NoDupKeys c.cache ∧
      (alookup k c.cache = some v ∨ alookup k c.cache = none)) :
    NoDupKeys (c.make_space_for n).cache ∧
      (alookup k (c.make_space_for n).cache = some v ∨
        alookup k (c.make_space_for n).cache = none) :=
  DiskvCache.make_space_for_pres
    (fun x => NoDupKeys x.cache ∧ (alookup k x.cache = some v ∨ alookup k x.cache = none))
    (fun x k2 hx => x.delete_keyinfo k2 hx) c n h

theorem nodupKeys_append_single {l : List (String × Bytes)} {k : String} (v : Bytes)
    (h : NoDupKeys l) (h2 : alookup k l = none) : NoDupKeys (l ++ [(k, v)]) := by
  have hk : k ∉ l.map Prod.fst := (alookup_eq_none_iff k l).mp h2
  unfold NoDupKeys at h ⊢
  rw [List.map_append]
  rw [List.nodup_append]
  refine ⟨h, by simp, ?_⟩
  intro a ha hb
  simp at hb
  subst hb
  exact hk ha

theorem alookup_append_single_self {l : List (String × Bytes)} {k : String} (v : Bytes)
    (h : alookup k l = none) : alookup k (l ++ [(k, v)]) = some v := by
  rw [alookup_append_none h]
  simp [alookup]

theorem alookup_append_single_ne {l : List (String × Bytes)} {k k2 : String} {v : Bytes}
    (hne : k2 ≠ k) (h : alookup k l = none) : alookup k (l ++ [(k2, v)]) = none := by
  rw [alookup_append_none h]
  simp [alookup, hne]

theorem DiskvCache.make_space_for_nodup {c : DiskvCache} (n : Nat)
    (h : NoDupKeys c.cache) : NoDupKeys (c.make_space_for n).cache :=
  DiskvCache.make_space_for_pres (fun x => NoDupKeys x.cache)
    (fun x k hx => x.delete_nodup k hx) c n h

theorem DiskvCache.putEvicted_cases (c : DiskvCache) (k : String) (v : Bytes) :
    c.putEvicted k v = c.delete k ∨
    c.putEvicted k v = (c.delete k).make_space_for (v.length % 4294967296) := by
  unfold DiskvCache.putEvicted
  by_cases h : ((c.delete k).cache_size + v.length % 4294967296) % 4294967296 >
      c.cache_size_max
  · rw [if_pos h]; exact Or.inr rfl
  · rw [if_neg h]; exact Or.inl rfl

theorem DiskvCache.putEvicted_max (c : DiskvCache) (k : String) (v : Bytes) :
    (c.putEvicted k v).cache_size_max = c.cache_size_max := by
  rcases DiskvCache.putEvicted_cases c k v with he | he <;> rw [he]
  · exact c.delete_max k
  · exact (DiskvCache.make_space_for_max _ _).trans (c.delete_max k)

theorem DiskvCache.putEvicted_nodup {c : DiskvCache} (k : String) (v : Bytes)
    (hN : NoDupKeys c.cache) : NoDupKeys (c.putEvicted k v).cache := by
  rcases DiskvCache.putEvicted_cases c k v with he | he <;> rw [he]
  · exact c.delete_nodup k hN
  · exact DiskvCache.make_space_for_nodup _ (c.delete_nodup k hN)

theorem DiskvCache.putEvicted_self_none {c : DiskvCache} {k : String} (v : Bytes)
    (hN : NoDupKeys c.cache) : alookup k (c.putEvicted k v).cache = none := by
  rcases DiskvCache.putEvicted_cases c k v with he | he <;> rw [he]
  · exact DiskvCache.delete_alookup_self hN
  · exact DiskvCache.make_space_for_none _ (DiskvCache.delete_alookup_self hN)

theorem DiskvCache.putEvicted_none {c : DiskvCache} {kt : String} (k : String)
    (v : Bytes) (h : alookup kt c.cache = none) :
    alookup kt (c.putEvicted k v).cache = none := by
  rcases DiskvCache.putEvicted_cases c k v with he | he <;> rw [he]
  · exact DiskvCache.delete_alookup_none k h
  · exact DiskvCache.make_space_for_none _ (DiskvCache.delete_alookup_none k h)

theorem DiskvCache.putEvicted_keyinfo {c : DiskvCache} {kt : String} {vt : Bytes}
    (k : String) (v : Bytes)
    (h : NoDupKeys c.cache ∧
      (alookup kt c.cache = some vt ∨ alookup kt c.cache = none)) :
    NoDupKeys (c.putEvicted k v).cache ∧
      (alookup kt (c.putEvicted k v).cache = some vt ∨
        alookup kt (c.putEvicted k v).cache = none) := by
  rcases DiskvCache.putEvicted_cases c k v with he | he <;> rw [he]
  · exact DiskvCache.delete_keyinfo k h
  · exact DiskvCache.make_space_for_keyinfo _ (DiskvCache.delete_keyinfo k h)

theorem DiskvCache.putEvicted_inv {c : DiskvCache} (k : String) (v : Bytes)
    (h : CacheInv c) : CacheInv (c.putEvicted k v) := by
  rcases DiskvCache.putEvicted_cases c k v with he | he <;> rw [he]
  · exact c.delete_inv k h
  · exact DiskvCache.make_space_for_inv _ (c.delete_inv k h)

theorem DiskvCache.put_cases {c c' : DiskvCache} {k : String} {v : Bytes}
    (hput : c.put k v = some c') :
    (v.length % 4294967296 > c.cache_size_max ∧ c' = c) ∨
    (v.length % 4294967296 ≤ c.cache_size_max ∧
      ((c.putEvicted k v).cache_size + v.length % 4294967296) % 4294967296 ≤
        c.cache_size_max ∧
      c' = ⟨(c.putEvicted k v).cache ++ [(k, v)],
            ((c.putEvicted k v).cache_size + v.length % 4294967296) % 4294967296,
            c.cache_size_max⟩) := by
  unfold DiskvCache.put at hput
  by_cases h1 : v.length % 4294967296 > c.cache_size_max
  · rw [if_pos h1] at hput
    exact Or.inl ⟨h1, (Option.some.inj hput).symm⟩
  · rw [if_neg h1] at hput
    by_cases h2 : ((c.putEvicted k v).cache_size + v.length % 4294967296) % 4294967296 >
        c.cache_size_max
    · rw [if_pos h2] at hput
      exact Option.noConfusion hput
    · rw [if_neg h2] at hput
      exact Or.inr ⟨Nat.le_of_not_lt h1, Nat.le_of_not_lt h2, (Option.some.inj hput).symm⟩

theorem DiskvCache.put_keyinfo_other {c c' : DiskvCache} {kt k : String} {vt v : Bytes}
    (hne : k ≠ kt)
    (h : NoDupKeys c.cache ∧
      (alookup kt c.cache = some vt ∨ alookup kt c.cache = none))
    (hput : c.put k v = some c') :
    NoDupKeys c'.cache ∧
      (alookup kt c'.cache = some vt ∨ alookup kt c'.cache = none) := by
  rcases DiskvCache.put_cases hput with ⟨_, rfl⟩ | ⟨_, _, rfl⟩
  · exact h
  · dsimp only
    have h2 := DiskvCache.putEvicted_keyinfo k v h
    have hself : alookup k (c.putEvicted k v).cache = none :=
      DiskvCache.putEvicted_self_none v h.1
    refine ⟨nodupKeys_append_single v h2.1 hself, ?_⟩
    rcases h2.2 with hs | hs
    · exact Or.inl (alookup_append_some hs)
    · exact Or.inr (alookup_append_single_ne hne hs)

theorem DiskvCache.put_keyinfo_self {c c' : DiskvCache} {k : String} {v : Bytes}
    (h : NoDupKeys c.cache ∧
      (alookup k c.cache = some v ∨ alookup k c.cache = none))
    (hput : c.put k v = some c') :
    NoDupKeys c'.cache ∧
      (alookup k c'.cache = some v ∨ alookup k c'.cache = none) := by
  rcases DiskvCache.put_cases hput with ⟨_, rfl⟩ | ⟨_, _, rfl⟩
  · exact h
  · dsimp only
    have hself : alookup k (c.putEvicted k v).cache = none :=
      DiskvCache.putEvicted_self_none v h.1
    exact ⟨nodupKeys_append_single v (DiskvCache.putEvicted_nodup k v h.1) hself,
      Or.inl (alookup_append_single_self v hself)⟩

theorem DiskvCache.put_caches {c c' : DiskvCache} {k : String} {v : Bytes}
    (hN : NoDupKeys c.cache) (hlen : v.length ≤ c.cache_size_max)
    (hmax : c.cache_size_max < 4294967296) (hput : c.put k v = some c') :
    NoDupKeys c'.cache ∧ alookup k c'.cache = some v := by
  have hv : v.length % 4294967296 = v.length := Nat.mod_eq_of_lt (by omega)
  rcases DiskvCache.put_cases hput with ⟨hgt, rfl⟩ | ⟨_, _, rfl⟩
  · rw [hv] at hgt
    omega
  · dsimp only
    have hself : alookup k (c.putEvicted k v).cache = none :=
      DiskvCache.putEvicted_self_none v hN
    exact ⟨nodupKeys_append_single v (DiskvCache.putEvicted_nodup k v hN) hself,
      alookup_append_single_self v hself⟩

theorem DiskvCache.put_pres_none {c c' : DiskvCache} {kt k : String} {v : Bytes}
    (hne : k ≠ kt) (h : alookup kt c.cache = none) (hput : c.put k v = some c') :
    alookup kt c'.cache = none := by
  rcases DiskvCache.put_cases hput with ⟨_, rfl⟩ | ⟨_, _, rfl⟩
  · exact h
  · dsimp only
    exact alookup_append_single_ne hne (DiskvCache.putEvicted_none k v h)

theorem DiskvCache.put_inv {c c' : DiskvCache} {k : String} {v : Bytes}
    (hlen : v.length < 4294967296) (h : CacheInv c) (hput : c.put k v = some c') :
    CacheInv c' := by
  have hv : v.length % 4294967296 = v.length := Nat.mod_eq_of_lt hlen
  rcases DiskvCache.put_cases hput with ⟨_, rfl⟩ | ⟨hle, hguard, rfl⟩
  · exact h
  · obtain ⟨hs2, hl2, hm2⟩ := DiskvCache.putEvicted_inv k v h
    have hmx : (c.putEvicted k v).cache_size_max = c.cache_size_max :=
      DiskvCache.putEvicted_max c k v
    rw [hv] at hle hguard
    have hsm : ((c.putEvicted k v).cache_size + v.length) % 4294967296 =
        (c.putEvicted k v).cache_size + v.length := by
      apply Nat.mod_eq_of_lt
      omega
    unfold CacheInv
    dsimp only
    rw [hv, hsm]
    refine ⟨?_, ?_, h.2.2⟩
    · rw [sumLen_append, hs2]
      simp [sumLen]
    · rw [hsm] at hguard
      exact hguard

/-! ### Diskv-level equations and invariant preservation -/

theorem Diskv.put_fault (st : Diskv) (k : String) (v : Bytes) :
    Diskv.put st k v true = some (st, .error .other) := by
  unfold Diskv.put
  rw [if_pos rfl]

theorem Diskv.put_eq_of_cache {st : Diskv} {k : String} {v : Bytes} {c' : DiskvCache}
    (hc : st.cache.put k v = some c') :
    Diskv.put st k v false = some (⟨c', psUpdate k v st.ps⟩, .ok ()) := by
  unfold Diskv.put
  rw [if_neg (by simp), hc]

theorem Diskv.put_eq_of_panic {st : Diskv} {k : String} {v : Bytes}
    (hc : st.cache.put k v = none) : Diskv.put st k v false = none := by
  unfold Diskv.put
  rw [if_neg (by simp), hc]

theorem Diskv.put_false_inv {st st' : Diskv} {k : String} {v : Bytes}
    {r : Except FsErr Unit} (hput : Diskv.put st k v false = some (st', r)) :
    ∃ c', st.cache.put k v = some c' ∧ st' = ⟨c', psUpdate k v st.ps⟩ ∧ r = .ok () := by
  rcases hc : st.cache.put k v with _ | c'
  · rw [Diskv.put_eq_of_panic hc] at hput
    exact Option.noConfusion hput
  · rw [Diskv.put_eq_of_cache hc] at hput
    have h2 := Option.some.inj hput
    exact ⟨c', hc ▸ rfl, (congrArg Prod.fst h2).symm, (congrArg Prod.snd h2).symm⟩

theorem Diskv.get_hit {st : Diskv} {k : String} {v : Bytes}
    (h : st.cache.get k = some v) (rf wf : Bool) :
    Diskv.get st k rf wf = some (st, .ok (some v)) := by
  unfold Diskv.get
  rw [h]

theorem Diskv.get_miss_rfault {st : Diskv} {k : String} (wf : Bool)
    (h : st.cache.get k = none) :
    Diskv.get st k true wf = some (st, .error .other) := by
  unfold Diskv.get
  rw [h]
  simp

theorem Diskv.get_miss_absent {st : Diskv} {k : String} (wf : Bool)
    (h : st.cache.get k = none) (hps : alookup k st.ps = none) :
    Diskv.get st k false wf = some (st, .ok none) := by
  unfold Diskv.get
  rw [h]
  simp [hps]

theorem Diskv.get_miss_found_ok {st st' : Diskv} {k : String} {v : Bytes} {wf : Bool}
    (h : st.cache.get k = none) (hps : alookup k st.ps = some v)
    (hput : Diskv.put st k v wf = some (st', .ok ())) :
    Diskv.get st k false wf = some (st', .ok (some v)) := by
  unfold Diskv.get
  rw [h]
  simp [hps, hput]

theorem Diskv.get_miss_found_err {st st' : Diskv} {k : String} {v : Bytes} {wf : Bool}
    {e : FsErr} (h : st.cache.get k = none) (hps : alookup k st.ps = some v)
    (hput : Diskv.put st k v wf = some (st', .error e)) :
    Diskv.get st k false wf = some (st', .error e) := by
  unfold Diskv.get
  rw [h]
  simp [hps, hput]

theorem Diskv.get_miss_found_panic {st : Diskv} {k : String} {v : Bytes} {wf : Bool}
    (h : st.cache.get k = none) (hps : alookup k st.ps = some v)
    (hput : Diskv.put st k v wf = none) : Diskv.get st k false wf = none := by
  unfold Diskv.get
  rw [h]
  simp [hps, hput]

theorem Diskv.delete_fault (st : Diskv) (k : String) :
    Diskv.delete st k true = (st, .error .other) := by
  unfold Diskv.delete
  rw [if_pos rfl]

theorem Diskv.delete_eq_of_absent {st : Diskv} {k : String}
    (hps : alookup k st.ps = none) : Diskv.delete st k false = (st, .ok ()) := by
  unfold Diskv.delete
  rw [if_neg (by simp), hps]

theorem Diskv.delete_eq_of_present {st : Diskv} {k : String} {v : Bytes}
    (hps : alookup k st.ps = some v) :
    Diskv.delete st k false = (⟨st.cache.delete k, aerase k st.ps⟩, .ok ()) := by
  unfold Diskv.delete
  rw [if_neg (by simp), hps]

theorem Diskv.delete_nofault_ok (st : Diskv) (k : String) :
    (Diskv.delete st k false).2 = .ok () := by
  rcases hps : alookup k st.ps with _ | v
  · rw [Diskv.delete_eq_of_absent hps]
  · rw [Diskv.delete_eq_of_present hps]

theorem Diskv.put_pres_KV {k k2 : String} {v v2 : Bytes} {wf : Bool} {st st' : Diskv}
    {r : Except FsErr Unit} (h : KV k v st) (hcase : k2 ≠ k ∨ v2 = v)
    (hput : Diskv.put st k2 v2 wf = some (st', r)) : KV k v st' := by
  cases wf with
  | false =>
      obtain ⟨c', hc, rfl, rfl⟩ := Diskv.put_false_inv hput
      by_cases hk : k2 = k
      · rcases hcase with hne | rfl
        · exact absurd hk hne
        · subst hk
          have hkp := DiskvCache.put_keyinfo_self ⟨h.1, h.2.2⟩ hc
          exact ⟨hkp.1, alookup_psUpdate_self k2 v2 st.ps, hkp.2⟩
      · have hkp := DiskvCache.put_keyinfo_other hk ⟨h.1, h.2.2⟩ hc
        refine ⟨hkp.1, ?_, hkp.2⟩
        rw [alookup_psUpdate_ne (Ne.symm hk)]
        exact h.2.1
  | true =>
      rw [Diskv.put_fault] at hput
      have h2 := Option.some.inj hput
      have hst : st = st' := congrArg Prod.fst h2
      rw [← hst]
      exact h

theorem Diskv.put_pres_ABS {k k2 : String} {v2 : Bytes} {wf : Bool} {st st' : Diskv}
    {r : Except FsErr Unit} (hne : k2 ≠ k) (h : ABS k st)
    (hput : Diskv.put st k2 v2 wf = some (st', r)) : ABS k st' := by
  cases wf with
  | false =>
      obtain ⟨c', hc, rfl, rfl⟩ := Diskv.put_false_inv hput
      refine ⟨?_, DiskvCache.put_pres_none hne h.2 hc⟩
      rw [alookup_psUpdate_ne (Ne.symm hne)]
      exact h.1
  | true =>
      rw [Diskv.put_fault] at hput
      have h2 := Option.some.inj hput
      have hst : st = st' := congrArg Prod.fst h2
      rw [← hst]
      exact h

theorem runOp_KV {k : String} {v : Bytes} {st st' : Diskv} {op : Op}
    (hA : AvoidsK k op) (h : KV k v st) (hrun : runOp st op = some st') :
    KV k v st' := by
  cases op with
  | put k2 v2 wf =>
      simp only [runOp, Option.map_eq_some'] at hrun
      obtain ⟨⟨st2, r⟩, hput, hfst⟩ := hrun
      rw [← hfst]
      exact Diskv.put_pres_KV h (Or.inl hA) hput
  | del k2 rmf =>
      have hne : k2 ≠ k := hA
      simp only [runOp, Option.some.injEq] at hrun
      rw [← hrun]
      cases rmf with
      | false =>
          rcases hps : alookup k2 st.ps with _ | w
          · rw [Diskv.delete_eq_of_absent hps]
            exact h
          · rw [Diskv.delete_eq_of_present hps]
            refine ⟨DiskvCache.delete_nodup k2 h.1, ?_, ?_⟩
            · rw [alookup_aerase_ne (Ne.symm hne)]
              exact h.2.1
            · have := DiskvCache.delete_keyinfo k2 (And.intro h.1 h.2.2)
              exact this.2
      | true =>
          rw [Diskv.delete_fault]
          exact h
  | get k2 rf wf =>
      simp only [runOp, Option.map_eq_some'] at hrun
      obtain ⟨⟨st2, r⟩, hget, hfst⟩ := hrun
      rw [← hfst]
      rcases hg : st.cache.get k2 with _ | w
      · cases rf with
        | false =>
            rcases hps : alookup k2 st.ps with _ | v2
            · rw [Diskv.get_miss_absent wf hg hps] at hget
              have h2 := Option.some.inj hget
              rw [← congrArg Prod.fst h2]
              exact h
            · rcases hput : Diskv.put st k2 v2 wf with _ | ⟨st3, r3⟩
              · rw [Diskv.get_miss_found_panic hg hps hput] at hget
                exact Option.noConfusion hget
              · have hcase : k2 ≠ k ∨ v2 = v := by
                  by_cases hk : k2 = k
                  · subst hk
                    rw [h.2.1] at hps
                    exact Or.inr (Option.some.inj hps).symm
                  · exact Or.inl hk
                have hKV3 := Diskv.put_pres_KV h hcase hput
                cases r3 with
                | ok u =>
                    cases u
                    rw [Diskv.get_miss_found_ok hg hps hput] at hget
                    have h2 := Option.some.inj hget
                    rw [← congrArg Prod.fst h2]
                    exact hKV3
                | error e =>
                    rw [Diskv.get_miss_found_err hg hps hput] at hget
                    have h2 := Option.some.inj hget
                    rw [← congrArg Prod.fst h2]
                    exact hKV3
        | true =>
            rw [Diskv.get_miss_rfault wf hg] at hget
            have h2 := Option.some.inj hget
            rw [← congrArg Prod.fst h2]
            exact h
      · rw [Diskv.get_hit hg rf wf] at hget
        have h2 := Option.some.inj hget
        rw [← congrArg Prod.fst h2]
        exact h

theorem runOps_KV {k : String} {v : Bytes} :
    ∀ (ops : List Op) (st st' : Diskv), (∀ op ∈ ops, AvoidsK k op) → KV k v st →
      runOps st ops = some st' → KV k v st' := by
  intro ops
  induction ops with
  | nil =>
      intro st st' _ h hrun
      simp only [runOps, Option.some.injEq] at hrun
      rw [← hrun]
      exact h
  | cons op t ih =>
      intro st st' hA h hrun
      simp only [runOps] at hrun
      rcases hop : runOp st op with _ | st2
      · rw [hop] at hrun
        exact Option.noConfusion hrun
      · rw [hop] at hrun
        exact ih st2 st' (fun o ho => hA o (List.mem_cons_of_mem _ ho))
          (runOp_KV (hA op (List.mem_cons_self _ _)) h hop) hrun

theorem Diskv.get_KV {k : String} {v : Bytes} {st : Diskv} (h : KV k v st) :
    Diskv.get st k false false = none ∨
      ∃ st3, Diskv.get st k false false = some (st3, .ok (some v)) := by
  rcases h.2.2 with hc | hc
  · exact Or.inr ⟨st, Diskv.get_hit hc false false⟩
  · rcases hput : Diskv.put st k v false with _ | ⟨st2, r⟩
    · exact Or.inl (Diskv.get_miss_found_panic hc h.2.1 hput)
    · obtain ⟨c', hcp, hst2, hr⟩ := Diskv.put_false_inv hput
      rw [hr] at hput
      exact Or.inr ⟨st2, Diskv.get_miss_found_ok hc h.2.1 hput⟩

theorem runOp_ABS {k : String} {st st' : Diskv} {op : Op}
    (hA : AvoidsPutK k op) (h : ABS k st) (hrun : runOp st op = some st') :
    ABS k st' := by
  cases op with
  | put k2 v2 wf =>
      simp only [runOp, Option.map_eq_some'] at hrun
      obtain ⟨⟨st2, r⟩, hput, hfst⟩ := hrun
      rw [← hfst]
      exact Diskv.put_pres_ABS hA h hput
  | del k2 rmf =>
      simp only [runOp, Option.some.injEq] at hrun
      rw [← hrun]
      cases rmf with
      | false =>
          rcases hps : alookup k2 st.ps with _ | w
          · rw [Diskv.delete_eq_of_absent hps]
            exact h
          · have hne : k2 ≠ k := by
              intro he
              rw [he, h.1] at hps
              exact Option.noConfusion hps
            rw [Diskv.delete_eq_of_present hps]
            refine ⟨?_, DiskvCache.delete_alookup_none k2 h.2⟩
            rw [alookup_aerase_ne (Ne.symm hne)]
            exact h.1
      | true =>
          rw [Diskv.delete_fault]
          exact h
  | get k2 rf wf =>
      simp only [runOp, Option.map_eq_some'] at hrun
      obtain ⟨⟨st2, r⟩, hget, hfst⟩ := hrun
      rw [← hfst]
      rcases hg : st.cache.get k2 with _ | w
      · cases rf with
        | false =>
            rcases hps : alookup k2 st.ps with _ | v2
            · rw [Diskv.get_miss_absent wf hg hps] at hget
              have h2 := Option.some.inj hget
              rw [← congrArg Prod.fst h2]
              exact h
            · have hne : k2 ≠ k := by
                intro he
                rw [he, h.1] at hps
                exact Option.noConfusion hps
              rcases hput : Diskv.put st k2 v2 wf with _ | ⟨st3, r3⟩
              · rw [Diskv.get_miss_found_panic hg hps hput] at hget
                exact Option.noConfusion hget
              · have hABS3 := Diskv.put_pres_ABS hne h hput
                cases r3 with
                | ok u =>
                    cases u
                    rw [Diskv.get_miss_found_ok hg hps hput] at hget
                    have h2 := Option.some.inj hget
                    rw [← congrArg Prod.fst h2]
                    exact hABS3
                | error e =>
                    rw [Diskv.get_miss_found_err hg hps hput] at hget
                    have h2 := Option.some.inj hget
                    rw [← congrArg Prod.fst h2]
                    exact hABS3
        | true =>
            rw [Diskv.get_miss_rfault wf hg] at hget
            have h2 := Option.some.inj hget
            rw [← congrArg Prod.fst h2]
            exact h
      · rw [Diskv.get_hit hg rf wf] at hget
        have h2 := Option.some.inj hget
        rw [← congrArg Prod.fst h2]
        exact h

theorem runOps_ABS {k : String} :
    ∀ (ops : List Op) (st st' : Diskv), (∀ op ∈ ops, AvoidsPutK k op) → ABS k st →
      runOps st ops = some st' → ABS k st' := by
  intro ops
  induction ops with
  | nil =>
      intro st st' _ h hrun
      simp only [runOps, Option.some.injEq] at hrun
      rw [← hrun]
      exact h
  | cons op t ih =>
      intro st st' hA h hrun
      simp only [runOps] at hrun
      rcases hop : runOp st op with _ | st2
      · rw [hop] at hrun
        exact Option.noConfusion hrun
      · rw [hop] at hrun
        exact ih st2 st' (fun o ho => hA o (List.mem_cons_of_mem _ ho))
          (runOp_ABS (hA op (List.mem_cons_self _ _)) h hop) hrun

theorem Diskv.get_ABS {k : String} {st : Diskv} (h : ABS k st) :
    Diskv.get st k false false = some (st, .ok none) :=
  Diskv.get_miss_absent false h.2 h.1

theorem Diskv.delete_establishes_ABS {st : Diskv} {k : String}
    (hN : NoDupKeys st.cache.cache) (hNp : NoDupKeys st.ps)
    (hsub : alookup k st.ps = none → alookup k st.cache.cache = none) :
    ABS k (Diskv.delete st k false).1 := by
  rcases hps : alookup k st.ps with _ | w
  · rw [Diskv.delete_eq_of_absent hps]
    exact ⟨hps, hsub hps⟩
  · rw [Diskv.delete_eq_of_present hps]
    exact ⟨alookup_aerase_self hNp, DiskvCache.delete_alookup_self hN⟩

theorem crunOp_inv {c c' : DiskvCache} {op : COp} (hlen : copLen op < 4294967296)
    (h : CacheInv c) (hrun : crunOp c op = some c') : CacheInv c' := by
  cases op with
  | put k v =>
      simp only [crunOp] at hrun
      exact DiskvCache.put_inv hlen h hrun
  | get k =>
      simp only [crunOp, Option.some.injEq] at hrun
      rw [← hrun]
      exact h
  | del k =>
      simp only [crunOp, Option.some.injEq] at hrun
      rw [← hrun]
      exact c.delete_inv k h

theorem crunOps_inv :
    ∀ (ops : List COp) (c c' : DiskvCache), (∀ op ∈ ops, copLen op < 4294967296) →
      CacheInv c → crunOps c ops = some c' → CacheInv c' := by
  intro ops
  induction ops with
  | nil =>
      intro c c' _ h hrun
      simp only [crunOps, Option.some.injEq] at hrun
      rw [← hrun]
      exact h
  | cons op t ih =>
      intro c c' hA h hrun
      simp only [crunOps] at hrun
      rcases hop : crunOp c op with _ | c2
      · rw [hop] at hrun
        exact Option.noConfusion hrun
      · rw [hop] at hrun
        exact ih c2 c' (fun o ho => hA o (List.mem_cons_of_mem _ ho))
          (crunOp_inv (hA op (List.mem_cons_self _ _)) h hop) hrun

/-! ### The 2^32-truncation computation -/

theorem hugeVal_length : hugeVal.length = 4294967297 := by
  unfold hugeVal
  exact List.length_replicate _ _

theorem hugeVal_mod : hugeVal.length % 4294967296 = 1 := by
  rw [hugeVal_length]

theorem hugeVal_put_eq :
    DiskvCache.put (DiskvCache.new 10) "k" hugeVal = some hugeCache := by
  have hd : (DiskvCache.new 10).delete "k" = DiskvCache.new 10 :=
    DiskvCache.delete_of_none rfl
  have hpe : (DiskvCache.new 10).putEvicted "k" hugeVal = DiskvCache.new 10 := by
    unfold DiskvCache.putEvicted
    rw [hd, hugeVal_mod]
    norm_num [DiskvCache.new]
  unfold DiskvCache.put
  rw [hugeVal_mod, hpe]
  norm_num [DiskvCache.new, hugeCache]

theorem hugeCache_sumLen : sumLen hugeCache.cache = 4294967297 := by
  simp [hugeCache, sumLen, hugeVal_length]

theorem crunOps_cons_some {c c2 : DiskvCache} {op : COp} {t : List COp}
    (h : crunOp c op = some c2) : crunOps c (op :: t) = crunOps c2 t := by
  simp only [crunOps]
  rw [h]

/-! ### Claim theorems -/

/--
Claim C1 (code bug): the claim states the fatal-invariant branch in
`DiskvCache::put` (the `panic!` after eviction) is unreachable whenever the
cache satisfies the size invariant and the value fits under the ceiling.
The code refutes it: `cacheOneNine` satisfies the invariant
(`cache_size = 10 = 1 + 9 ≤ 10`) and the new 2-byte value fits, but the
eviction scan stops after freeing only the 1-byte entry (since the
remaining 9 bytes are ≥ `val_len = 2`), so after `make_space_for` we have
`9 + 2 > 10` and `put` hits the panic (`none`).
-/
theorem c1_eviction_abort_reachable :
    cacheOneNine.cache_size = sumLen cacheOneNine.cache ∧
    cacheOneNine.cache_size ≤ cacheOneNine.cache_size_max ∧
    ([2, 2] : Bytes).length ≤ cacheOneNine.cache_size_max ∧
    (cacheOneNine.putEvicted "c" [2, 2]).cache_size + ([2, 2] : Bytes).length >
      cacheOneNine.cache_size_max ∧
    DiskvCache.put cacheOneNine "c" [2, 2] = none := by
  decide

/--
Claim C2 (code bug): the claim states eviction stops exactly when the bytes
freed reach the amount needed and never evicts more entries than necessary.
The code refutes it: inserting a 5-byte value into `cacheThreeThree`
(6/10 used) needs only `6 + 5 - 10 = 1` byte freed, and the first visited
entry "k1" alone frees 3 ≥ 1 bytes, yet the loop's condition
`cache_size - key_sizes >= val_len` never fires, so both "k1" and "k2" are
evicted.
-/
theorem c2_eviction_over_evicts :
    cacheThreeThree.cache_size = sumLen cacheThreeThree.cache ∧
    cacheThreeThree.cache_size + ([3, 3, 3, 3, 3] : Bytes).length -
      cacheThreeThree.cache_size_max = 1 ∧
    alookup "k1" cacheThreeThree.cache = some [1, 1, 1] ∧
    ([1, 1, 1] : Bytes).length ≥ 1 ∧
    DiskvCache.put cacheThreeThree "k3" [3, 3, 3, 3, 3] =
      some ⟨[("k3", [3, 3, 3, 3, 3])], 5, 10⟩ ∧
    alookup "k1" (cacheThreeThree.putEvicted "k3" [3, 3, 3, 3, 3]).cache = none ∧
    alookup "k2" (cacheThreeThree.putEvicted "k3" [3, 3, 3, 3, 3]).cache = none := by
  decide

/--
Claim C3 counterexample: the claim states that when the persistent store
reports the key already absent, delete evicts the key from the cache and
returns success.  In `stC3` the key "k1" is cached but has no file; delete
returns success but leaves the cache entry in place.
-/
theorem c3_notfound_no_evict_cex :
    alookup "k1" stC3.ps = none ∧
    Diskv.delete stC3 "k1" false = (stC3, .ok ()) ∧
    alookup "k1" (Diskv.delete stC3 "k1" false).1.cache.cache = some [0] := by
  decide

/--
Claim C3 (amended): a non-`NotFound` persistent failure is returned with
nothing changed; otherwise delete returns success and the key is durably
gone; the key is evicted from the cache when the persistent remove
succeeded, while in the `NotFound` case the whole state — cache included —
is left unchanged.
-/
theorem c3_delete_behavior {st : Diskv} {k : String}
    (hN : NoDupKeys st.cache.cache) (hNp : NoDupKeys st.ps) :
    Diskv.delete st k true = (st, .error .other) ∧
    (Diskv.delete st k false).2 = .ok () ∧
    alookup k (Diskv.delete st k false).1.ps = none ∧
    ((alookup k st.ps).isSome →
      alookup k (Diskv.delete st k false).1.cache.cache = none) ∧
    (alookup k st.ps = none → Diskv.delete st k false = (st, .ok ())) := by
  refine ⟨Diskv.delete_fault st k, Diskv.delete_nofault_ok st k, ?_, ?_, ?_⟩
  · rcases hps : alookup k st.ps with _ | w
    · rw [Diskv.delete_eq_of_absent hps]
      exact hps
    · rw [Diskv.delete_eq_of_present hps]
      exact alookup_aerase_self hNp
  · intro hs
    rcases hps : alookup k st.ps with _ | w
    · rw [hps] at hs
      simp at hs
    · rw [Diskv.delete_eq_of_present hps]
      exact DiskvCache.delete_alookup_self hN
  · intro hps
    exact Diskv.delete_eq_of_absent hps

/-- Witness for the amended C3 theorem at the concrete store `storeW`. -/
theorem c3_delete_behavior_witness :
    Diskv.delete storeW "k1" true = (storeW, .error .other) ∧
    (Diskv.delete storeW "k1" false).2 = .ok () ∧
    alookup "k1" (Diskv.delete storeW "k1" false).1.ps = none ∧
    alookup "k1" (Diskv.delete storeW "k1" false).1.cache.cache = none :=
  ⟨(c3_delete_behavior (by decide) (by decide)).1,
   (c3_delete_behavior (by decide) (by decide)).2.1,
   (c3_delete_behavior (by decide) (by decide)).2.2.1,
   (c3_delete_behavior (by decide) (by decide)).2.2.2.1 (by decide)⟩

/--
Claim C4 counterexample: the claim states that after any sequence of cache
operations from the empty cache, `cache_size` equals the sum of held value
lengths, stays ≤ `cache_size_max`, and no held value exceeds the ceiling.
Putting a value of `2^32 + 1` bytes into a fresh ceiling-10 cache is
accepted (its `as u32` length truncates to 1) and yields a state holding
`2^32 + 1` bytes while `cache_size = 1`.
-/
theorem c4_invariant_cex :
    crunOps (DiskvCache.new 10) [COp.put "k" hugeVal] = some hugeCache ∧
    ¬(hugeCache.cache_size = sumLen hugeCache.cache ∧
      hugeCache.cache_size ≤ hugeCache.cache_size_max ∧
      ∀ p ∈ hugeCache.cache, p.2.length ≤ hugeCache.cache_size_max) := by
  constructor
  · have h1 : crunOp (DiskvCache.new 10) (COp.put "k" hugeVal) = some hugeCache :=
      hugeVal_put_eq
    rw [crunOps_cons_some h1]
    rfl
  · intro h
    obtain ⟨h1, -, -⟩ := h
    rw [hugeCache_sumLen] at h1
    norm_num [hugeCache] at h1

/--
Claim C4 (amended): provided every value put has fewer than `2^32` bytes
(so the `as u32` length cast is exact) and the ceiling is below `2^31` (so
the `u32` size comparisons cannot wrap), every state reachable by cache
operations from the empty cache satisfies: `cache_size` equals the sum of
held value lengths, `cache_size ≤ cache_size_max`, and no held value's
length exceeds `cache_size_max`.
-/
theorem c4_invariant_amended {M : Nat} (hM : M < 2147483648) {ops : List COp}
    (hops : ∀ op ∈ ops, copLen op < 4294967296) {c : DiskvCache}
    (hrun : crunOps (DiskvCache.new M) ops = some c) :
    c.cache_size = sumLen c.cache ∧ c.cache_size ≤ c.cache_size_max ∧
    ∀ p ∈ c.cache, p.2.length ≤ c.cache_size_max := by
  have hinv0 : CacheInv (DiskvCache.new M) :=
    ⟨by simp [DiskvCache.new, sumLen], by simp [DiskvCache.new], hM⟩
  have hinv := crunOps_inv ops _ c hops hinv0 hrun
  refine ⟨hinv.1, hinv.2.1, ?_⟩
  intro p hp
  have hple := mem_length_le_sumLen hp
  have h1 := hinv.1
  have h2 := hinv.2.1
  omega

/-- Witness for the amended C4 theorem: the empty run from a ceiling-10 cache. -/
theorem c4_invariant_amended_witness :
    (DiskvCache.new 10).cache_size = sumLen (DiskvCache.new 10).cache ∧
    (DiskvCache.new 10).cache_size ≤ (DiskvCache.new 10).cache_size_max ∧
    ∀ p ∈ (DiskvCache.new 10).cache, p.2.length ≤ (DiskvCache.new 10).cache_size_max :=
  c4_invariant_amended (by norm_num)
    (by simp : ∀ op ∈ ([] : List COp), copLen op < 4294967296)
    (rfl : crunOps (DiskvCache.new 10) [] = some (DiskvCache.new 10))

/--
Claim C5 counterexample: the claim states a successful `put(k, v)` followed
by `get(k)` with no intervening delete returns exactly `v`.  From `store1`
(where "k1" caches the 10-byte `val10`), `put "k1" val11` succeeds — the
11-byte file is durably written — and the immediately following `get "k1"`
returns the stale `val10 ≠ val11`, because the oversized value was rejected
by the cache layer.
-/
theorem c5_put_get_cex :
    Diskv.put store0 "k1" val10 false = some (store1, .ok ()) ∧
    Diskv.put store1 "k1" val11 false = some (store2, .ok ()) ∧
    Diskv.get store2 "k1" false false = some (store2, .ok (some val10)) ∧
    val10 ≠ val11 := by
  decide

/--
Claim C5 (amended): if `put(k, v)` succeeds with `v` no longer than the
cache ceiling (itself a `u32`), and the subsequent completed operations
include no put or delete of `k`, then a `get(k)` either aborts in the fatal
eviction branch or returns exactly `v` — served from the cache or read
through from the persistent store.
-/
theorem c5_put_get_amended {st st1 st2 : Diskv} {k : String} {v : Bytes}
    {ops : List Op} (hN : NoDupKeys st.cache.cache)
    (hlen : v.length ≤ st.cache.cache_size_max)
    (hmax : st.cache.cache_size_max < 4294967296)
    (hput : Diskv.put st k v false = some (st1, .ok ()))
    (hops : ∀ op ∈ ops, AvoidsK k op)
    (hrun : runOps st1 ops = some st2) :
    Diskv.get st2 k false false = none ∨
      ∃ st3, Diskv.get st2 k false false = some (st3, .ok (some v)) := by
  obtain ⟨c', hc, rfl, -⟩ := Diskv.put_false_inv hput
  have hcc := DiskvCache.put_caches hN hlen hmax hc
  have hKV1 : KV k v ⟨c', psUpdate k v st.ps⟩ :=
    ⟨hcc.1, alookup_psUpdate_self k v st.ps, Or.inl hcc.2⟩
  exact Diskv.get_KV (runOps_KV ops _ st2 hops hKV1 hrun)

/-- Witness for the amended C5 theorem: `put store0 "k1" [7]` then `get`. -/
theorem c5_put_get_amended_witness :
    Diskv.get storeW "k1" false false = none ∨
      ∃ st3, Diskv.get storeW "k1" false false = some (st3, .ok (some [7])) :=
  c5_put_get_amended
    (by decide : NoDupKeys store0.cache.cache)
    (by decide : ([7] : Bytes).length ≤ store0.cache.cache_size_max)
    (by decide : store0.cache.cache_size_max < 4294967296)
    (by decide : Diskv.put store0 "k1" [7] false = some (storeW, .ok ()))
    (by simp : ∀ op ∈ ([] : List Op), AvoidsK "k1" op)
    (rfl : runOps storeW [] = some storeW)

/--
Claim C6 (confirmed): with ceiling 10 and "k1" caching the 10-byte `val10`,
the 11-byte `put "k1" val11` succeeds durably but is rejected from the
cache as a no-op (the cache is unchanged), and `get "k1"` keeps returning
the prior 10-byte value — leaving the state unchanged, so every later get
does the same — until a delete invalidates the entry, after which get
returns an absent result.
-/
theorem c6_oversize_stale_cache :
    Diskv.put store0 "k1" val10 false = some (store1, .ok ()) ∧
    Diskv.put store1 "k1" val11 false = some (store2, .ok ()) ∧
    store2.cache = store1.cache ∧
    val11.length > store2.cache.cache_size_max ∧
    alookup "k1" store2.ps = some val11 ∧
    Diskv.get store2 "k1" false false = some (store2, .ok (some val10)) ∧
    Diskv.delete store2 "k1" false = (⟨⟨[], 0, 10⟩, []⟩, .ok ()) ∧
    Diskv.get ⟨⟨[], 0, 10⟩, []⟩ "k1" false false =
      some (⟨⟨[], 0, 10⟩, []⟩, .ok none) := by
  decide

/--
Claim C7 (confirmed): the store-level put returns the persistent-write
failure with the state (cache included) untouched; every non-faulted put
that returns at all reports success and has performed the durable write;
and a cache-layer oversize rejection after a successful write still reports
success with the cache untouched.  (Per the spec, the fatal cache-invariant
abort — `put` not returning — is a process abort, not a reported error.)
-/
theorem c7_put_error_handling (st : Diskv) (k : String) (v : Bytes) :
    Diskv.put st k v true = some (st, .error .other) ∧
    (∀ (st' : Diskv) (r : Except FsErr Unit),
      Diskv.put st k v false = some (st', r) →
        r = .ok () ∧ st'.ps = psUpdate k v st.ps) ∧
    (v.length % 4294967296 > st.cache.cache_size_max →
      Diskv.put st k v false = some (⟨st.cache, psUpdate k v st.ps⟩, .ok ())) := by
  refine ⟨Diskv.put_fault st k v, ?_, ?_⟩
  · intro st' r hput
    obtain ⟨c', hc, rfl, rfl⟩ := Diskv.put_false_inv hput
    exact ⟨rfl, rfl⟩
  · intro hover
    have hc : st.cache.put k v = some st.cache := by
      unfold DiskvCache.put
      rw [if_pos hover]
    exact Diskv.put_eq_of_cache hc

/-- Witness for C7 at concrete stores: a faulted write, a successful write,
and an oversized-value write. -/
theorem c7_put_error_handling_witness :
    Diskv.put storeW "k2" [5] true = some (storeW, .error .other) ∧
    (⟨⟨[("k1", [7]), ("k2", [5])], 2, 10⟩, [("k1", [7]), ("k2", [5])]⟩ : Diskv).ps =
      psUpdate "k2" [5] storeW.ps ∧
    Diskv.put storeW "k2" (List.replicate 11 3) false =
      some (⟨storeW.cache, psUpdate "k2" (List.replicate 11 3) storeW.ps⟩, .ok ()) :=
  ⟨(c7_put_error_handling storeW "k2" [5]).1,
   ((c7_put_error_handling storeW "k2" [5]).2.1
      ⟨⟨[("k1", [7]), ("k2", [5])], 2, 10⟩, [("k1", [7]), ("k2", [5])]⟩
      (.ok ()) (by decide)).2,
   (c7_put_error_handling storeW "k2" (List.replicate 11 3)).2.2 (by decide)⟩

/--
Claim C8 (confirmed): a fault-free delete always reports success (in
particular deleting an absent key); afterwards — given that a key the cache
holds is also on disk, as in every reachable state — the key is absent from
cache and store, and any completed operations containing no put of `k`
preserve that, so `get k` returns `Ok(none)`: an absent result, not an
error, until the next put of `k`.
-/
theorem c8_delete_then_get_absent {st : Diskv} {k : String}
    (hN : NoDupKeys st.cache.cache) (hNp : NoDupKeys st.ps)
    (hsub : alookup k st.ps = none → alookup k st.cache.cache = none) :
    (Diskv.delete st k false).2 = .ok () ∧
    ∀ ops, (∀ op ∈ ops, AvoidsPutK k op) →
      ∀ st2, runOps (Diskv.delete st k false).1 ops = some st2 →
        Diskv.get st2 k false false = some (st2, .ok none) := by
  refine ⟨Diskv.delete_nofault_ok st k, ?_⟩
  intro ops hA st2 hrun
  exact Diskv.get_ABS
    (runOps_ABS ops _ st2 hA (Diskv.delete_establishes_ABS hN hNp hsub) hrun)

/-- Witness for C8 at the concrete store `storeW`. -/
theorem c8_delete_then_get_absent_witness :
    (Diskv.delete storeW "k1" false).2 = .ok () ∧
    Diskv.get (Diskv.delete storeW "k1" false).1 "k1" false false =
      some ((Diskv.delete storeW "k1" false).1, .ok none) :=
  ⟨(c8_delete_then_get_absent (by decide) (by decide)
      (by decide : alookup "k1" storeW.ps = none →
        alookup "k1" storeW.cache.cache = none)).1,
   (c8_delete_then_get_absent (by decide) (by decide)
      (by decide : alookup "k1" storeW.ps = none →
        alookup "k1" storeW.cache.cache = none)).2
     [] (by simp) (Diskv.delete storeW "k1" false).1 rfl⟩

/--
Claim C9 (confirmed): on a cache miss for a durably present key, get is not
read-only: it repopulates through the full store-level put, which writes
the just-read value back to disk; if that redundant write fails, get
returns the error although the read succeeded, and when it succeeds the
returned state's persistent side equals a rewrite of the same value.
-/
theorem c9_readthrough_writeback {st : Diskv} {k : String} {v : Bytes}
    (hmiss : alookup k st.cache.cache = none) (hps : alookup k st.ps = some v) :
    Diskv.get st k false true = some (st, .error .other) ∧
    (∀ (st' : Diskv) (r : Except FsErr (Option Bytes)),
      Diskv.get st k false false = some (st', r) →
        r = .ok (some v) ∧ st'.ps = psUpdate k v st.ps) := by
  have hg : st.cache.get k = none := hmiss
  constructor
  · exact Diskv.get_miss_found_err hg hps (Diskv.put_fault st k v)
  · intro st' r hget
    rcases hput : Diskv.put st k v false with _ | ⟨st3, r3⟩
    · rw [Diskv.get_miss_found_panic hg hps hput] at hget
      exact Option.noConfusion hget
    · obtain ⟨c', hc, hst3, hr3⟩ := Diskv.put_false_inv hput
      rw [hr3] at hput
      rw [Diskv.get_miss_found_ok hg hps hput] at hget
      have h2 := Option.some.inj hget
      have hfst : st3 = st' := congrArg Prod.fst h2
      refine ⟨(congrArg Prod.snd h2).symm, ?_⟩
      rw [← hfst, hst3]

/-- Witness for C9 at the concrete store `store9`. -/
theorem c9_readthrough_writeback_witness :
    Diskv.get store9 "k1" false true = some (store9, .error .other) ∧
    (Except.ok (some [7]) : Except FsErr (Option Bytes)) = .ok (some [7]) :=
  ⟨(c9_readthrough_writeback
      (by decide : alookup "k1" store9.cache.cache = none)
      (by decide : alookup "k1" store9.ps = some [7])).1,
   ((c9_readthrough_writeback
      (by decide : alookup "k1" store9.cache.cache = none)
      (by decide : alookup "k1" store9.ps = some [7])).2
      ⟨⟨[("k1", [7])], 1, 10⟩, [("k1", [7])]⟩ (.ok (some [7])) (by decide)).1⟩

/--
Claim C10 (confirmed): cache size accounting casts the value's byte length
to `u32`, i.e. reduces it modulo `2^32`: for the `2^32 + 1`-byte `hugeVal`
the accounted length is 1, so the oversize check passes against the
ceiling 10, the value is cached, the tracked `cache_size` stays ≤ the
ceiling, yet the true number of cached bytes exceeds the ceiling — the
cached-bytes invariant is violated.
-/
theorem c10_u32_truncation :
    hugeVal.length % 4294967296 ≤ (DiskvCache.new 10).cache_size_max ∧
    hugeVal.length > (DiskvCache.new 10).cache_size_max ∧
    DiskvCache.put (DiskvCache.new 10) "k" hugeVal = some hugeCache ∧
    hugeCache.cache_size ≤ hugeCache.cache_size_max ∧
    sumLen hugeCache.cache > hugeCache.cache_size_max := by
  refine ⟨?_, ?_, hugeVal_put_eq, ?_, ?_⟩
  · rw [hugeVal_mod]
    norm_num [DiskvCache.new]
  · rw [hugeVal_length]
    norm_num [DiskvCache.new]
  · norm_num [hugeCache]
  · rw [hugeCache_sumLen]
    norm_num [hugeCache]
